import Mathlib

/-!
Verification of the CTQA case-processing pipeline.

The definitions below embed, in Lean, the parts of the CTQA code base that
the verified properties talk about:

* `python_app/ctqa.py` (`CTQA.transfer_masks`, `CTQA.analyze`,
  `CTQA.calc_relative_mtf`, `CTQA.calc_integral_non_uniformity`,
  `CTQA.gen_html_table_rows_from_csv`, `CTQA.collect_csv_results`,
  `CTQA.report`),
* `python_app/imagetools.py` (`calc_image_min_max_mean_std_3d_f`,
  `threshold_3d_f`),
* `catphan_image_analysis/fastapi_server/main.py` (`create_case`,
  `upload_file_to_case`, `start_case_analysis`) and
  `catphan_image_analysis/fastapi_server/worker.py`
  (`process_ctqa_analysis`).

Voxel arrays are embedded as flattened `List ℚ` (the properties checked here
are pointwise and do not depend on the 3D layout); intensities, thresholds
and tolerances are `ℚ`.
-/

namespace CTQA

/-- Python `max(values)` over a non-empty list (as used by
`calc_integral_non_uniformity`, ctqa.py line 583); `0` for `[]`, which the
code never reaches. -/
def py_max : List ℚ → ℚ
  | [] => 0
  | x :: xs => xs.foldl max x

/-- Python `min(values)` over a non-empty list (ctqa.py line 584). -/
def py_min : List ℚ → ℚ
  | [] => 0
  | x :: xs => xs.foldl min x

/-- Embedding of `CTQA.calc_integral_non_uniformity` (ctqa.py lines 574-590)
applied to
the uniformity mean values read back from `UF.csv`:
`inu = (max_val - min_val) / (max_val + min_val)`. -/
def calc_integral_non_uniformity (values : List ℚ) : ℚ :=
  (py_max values - py_min values) / (py_max values + py_min values)

/-- The scan of `CTQA.calc_relative_mtf` (ctqa.py lines 606-610): index of
the first normalized sample strictly below `0.5`; `none` corresponds to
`index_after_50percent == -1`. -/
def first_below_half : List ℚ → Option ℕ
  | [] => none
  | x :: xs => if x < 1/2 then some 0 else (first_below_half xs).map (· + 1)

/-- The crossing search and interpolation of `CTQA.calc_relative_mtf`
(ctqa.py lines 605-621) on the already-normalized values `v2`: raise the
no-crossing error when no sample is below `0.5`, otherwise solve the line
through the previous and the crossing sample for the value `0.5`.  Python
evaluates `v2[idx - 1]` with wrap-around indexing, reproduced here for
`idx = 0` (unreachable when `v1[0] ≠ 0`). -/
def mtf_interp (v2 : List ℚ) : Except String ℚ :=
  match first_below_half v2 with
  | none => Except.error "calc_relative_mtf() - Failed finding 50% crossing!"
  | some idx =>
    let i1 : ℕ := if idx = 0 then v2.length - 1 else idx - 1
    let y1 := v2.getD i1 0
    let y2 := v2.getD idx 0
    let x1 : ℚ := (idx : ℚ) - 1
    let x2 : ℚ := (idx : ℚ)
    let a : ℚ := if x2 - x1 ≠ 0 then (y2 - y1) / (x2 - x1) else 0
    let b : ℚ := y1 - a * x1
    Except.ok (if a ≠ 0 then (1/2 - b) / a else 0)

/-- Embedding of `CTQA.calc_relative_mtf` (ctqa.py lines 592-633) on the list of
high-contrast std values read from `HC.csv`: normalize by the first value
(`v2 = [v / v1[0] for v in v1]`), then search and interpolate the 50%
crossing. -/
def calc_relative_mtf (v1 : List ℚ) : Except String ℚ :=
  mtf_interp (v1.map (fun v => v / v1.headI))

/-- Index of the globally last normalized sample `≥ 0.5`.  Modelled from the
claim wording ("the last sample ≥ 0.5"), for comparison with what
`calc_relative_mtf` actually uses. -/
def last_ge_half (v2 : List ℚ) : Option ℕ :=
  ((List.range v2.length).filter (fun k => decide (1/2 ≤ v2.getD k 0))).getLast?

/-- The 50% crossing as literally worded by the claim: linear interpolation
between the last sample `≥ 0.5` and the first sample `< 0.5`, evaluated at
level `0.5`.  Modelled from the claim wording, for comparison with
`calc_relative_mtf`. -/
def claim_mtf_50_crossing (v1 : List ℚ) : Option ℚ :=
  let v2 := v1.map (fun v => v / v1.headI)
  match last_ge_half v2, first_below_half v2 with
  | some l, some f =>
    let yl := v2.getD l 0
    let yf := v2.getD f 0
    some ((l : ℚ) + (1/2 - yl) * ((f : ℚ) - (l : ℚ)) / (yf - yl))
  | _, _ => none

/-- Decoding one label out of a (transformed) composite mask, ctqa.py lines
340-349: select the closed band
`pixel_value - 0.6 <= x <= pixel_value + 0.6` (value 1), else 0. -/
def reconstruct_mask (transformed : List ℚ) (i : ℕ) : List ℚ :=
  transformed.map (fun x =>
    if (i : ℚ) - 3/5 ≤ x ∧ x ≤ (i : ℚ) + 3/5 then 1 else 0)

/-- One assignment of the composite construction, ctqa.py line 294:
`composite_array[mask_array > 0.5] = float(i)` (first argument the current
composite, second the mask, third the label). -/
def overwrite_label : List ℚ → List ℚ → ℚ → List ℚ
  | c :: cs, m :: ms, lab => (if m > 1/2 then lab else c) :: overwrite_label cs ms lab
  | _, _, _ => []

/-- The loop of ctqa.py lines 292-294: masks are numbered from `lab`
upwards, later masks overwriting earlier ones. -/
def make_composite_go : List (List ℚ) → List ℚ → ℚ → List ℚ
  | [], comp, _ => comp
  | m :: rest, comp, lab => make_composite_go rest (overwrite_label comp m lab) (lab + 1)

/-- Composite-mask construction of `CTQA.transfer_masks` (ctqa.py lines
290-294): start from `np.zeros_like(mask_arrays[0])` and assign label `i`
(1-based) wherever `mask_i > 0.5`. -/
def make_composite (masks : List (List ℚ)) : List ℚ :=
  make_composite_go masks (masks.headI.map (fun _ => 0)) 1

/-- Image geometry as compared by `transfer_masks`: the `GetSpacing()`,
`GetOrigin()` and `GetSize()` tuples. -/
structure Geometry where
  spacing : ℚ × ℚ × ℚ
  origin : ℚ × ℚ × ℚ
  size : ℕ × ℕ × ℕ
deriving DecidableEq, Repr

/-- A 3D image: geometry plus flattened voxel data. -/
structure Image3 where
  geom : Geometry
  data : List ℚ
deriving DecidableEq, Repr

/-- A concrete unit geometry used by concrete instantiations. -/
def unitGeom : Geometry := ⟨(1, 1, 1), (0, 0, 0), (1, 1, 1)⟩

/-- The per-label reconstruction loop of `CTQA.transfer_masks` (ctqa.py
lines 340-382) over a list of labels: threshold the band for the label,
raise when the reconstructed mask is all zero (`np.sum(mask_array) == 0`),
copy the fixed geometry onto the mask (`CopyInformation(fixed_image)`) and
re-check it against the fixed image. -/
def split_masks (tdata : List ℚ) (fixed : Image3) : List ℕ → Except String (List Image3)
  | [] => Except.ok []
  | i :: rest =>
    let arr := reconstruct_mask tdata i
    if arr.count 1 = 0 then
      Except.error "Transferred mask is empty - all pixels are zero"
    else
      let mask : Image3 := ⟨fixed.geom, arr⟩
      if mask.geom ≠ fixed.geom then
        Except.error "Output mask geometry mismatch"
      else
        (split_masks tdata fixed rest).map (fun l => mask :: l)

/-- ctqa.py lines 319-382: the transformed composite is checked against the
fixed image geometry, then split into the masks for labels `1..n`. -/
def transfer_split (transformed fixed : Image3) (n : ℕ) : Except String (List Image3) :=
  if transformed.geom ≠ fixed.geom then
    Except.error "Transformed composite geometry mismatch"
  else
    split_masks transformed.data fixed ((List.range n).map (· + 1))

/-- Embedding of `threshold_3d_f` (imagetools.py lines 160-186):
`np.where(image_array < th, level0, level1)`. -/
def threshold_3d_f (image : List ℚ) (level0 th level1 : ℚ) : List ℚ :=
  image.map (fun x => if x < th then level0 else level1)

/-- The threshold step of the in-plane geometry centroid computation:
`CTQA.analyze` calls `measure_dist(..., "geo", 1.0, -500, 0.0, ...)`
(ctqa.py line 393) and `center_of_mass` forwards `(level0, th, level1)` to
`threshold_3d_f` (ctqa.py line 525). -/
def geo_centroid_threshold (cropped : List ℚ) : List ℚ :=
  threshold_3d_f cropped 1 (-500) 0

/-- The threshold step of the out-of-plane/depth centroid computation:
`CTQA.analyze` calls `measure_dist(..., "DT", 0.0, 200, 1.0, ...)` (ctqa.py
line 394). -/
def DT_centroid_threshold (cropped : List ℚ) : List ℚ :=
  threshold_3d_f cropped 0 200 1

/-- Pass/fail decision of `CTQA.gen_html_table_rows_from_csv` (ctqa.py lines
661-665): `diff = value1 - value0; err = abs(diff)`, `"Pass"` when
`err < tol`, `"Fail"` otherwise. -/
def html_pass_fail (value0 value1 tol : ℚ) : String :=
  let diff := value1 - value0
  let err := |diff|
  if err < tol then "Pass" else "Fail"

/-- The pass cell added to the HTML row (ctqa.py lines 681-684). -/
def html_pass_cell (value0 value1 tol : ℚ) : String :=
  if html_pass_fail value0 value1 tol = "Pass" then
    "<td class=\"pass\">Pass<span class=\"glyphicon glyphicon-ok\" aria-hidden=\"true\"></span></td>"
  else
    "<td class=\"fail\">Fail<span class=\"glyphicon glyphicon-remove\" aria-hidden=\"true\"></span></td>"

/-- One JSON measurement entry of `CTQA.collect_csv_results` (ctqa.py lines
728-746).  The JSON document stores `round(x, 4)` of `value`, `reference`
and `difference` for display; `passed` is computed from the unrounded
values, which are what the fields here keep. -/
structure MeasurementJson where
  value : ℚ
  reference : ℚ
  difference : ℚ
  tolerance : ℚ
  passed : Bool
deriving DecidableEq, Repr

/-- The per-row computation of `CTQA.collect_csv_results` (ctqa.py lines
733-746): `diff = value - reference; passed = abs(diff) < tol`. -/
def collect_csv_result (reference value tol : ℚ) : MeasurementJson :=
  { value := value
    reference := reference
    difference := value - reference
    tolerance := tol
    passed := decide (|value - reference| < tol) }

/-- Output record of `calc_image_min_max_mean_std_3d_f`.  `var_val` is the
square of `np.std` (the mean squared deviation): ℚ has no square root, and
the only branch the claims inspect (the empty mask) writes `std = 0.0`
directly, where `var_val = 0` as well. -/
structure ImageStats where
  min_val : ℚ
  max_val : ℚ
  mean_val : ℚ
  var_val : ℚ
deriving DecidableEq, Repr

/-- The selection `masked_values = image_array[mask_array > 0.5]`
(imagetools.py line 38),
with image and mask voxel-aligned (the code resamples the mask onto the
image grid first when the shapes differ). -/
def masked_values (image mask : List ℚ) : List ℚ :=
  (image.zip mask).filterMap (fun p => if p.2 > 1/2 then some p.1 else none)

/-- Embedding of `calc_image_min_max_mean_std_3d_f` (imagetools.py lines
13-56): when the
mask selects no voxel the function logs a warning and yields all-zero
statistics; otherwise min/max/mean/std of the selected values. -/
def calc_image_min_max_mean_std_3d_f (image mask : List ℚ) : ImageStats :=
  let mv := masked_values image mask
  if mv = [] then ⟨0, 0, 0, 0⟩
  else
    let mean := mv.sum / (mv.length : ℚ)
    ⟨py_min mv, py_max mv, mean, (mv.map (fun x => (x - mean) ^ 2)).sum / (mv.length : ℚ)⟩

/-- Job status values stored in the Mongo `jobs` collection. -/
inductive Status where
  | uploading
  | queued
  | processing
  | completed
  | failed
deriving DecidableEq, Repr

/-- Position of a status along the documented chain
uploading → queued → processing → {completed | failed}; the two terminal
statuses share the last position. -/
def Status.rank : Status → ℕ
  | .uploading => 0
  | .queued => 1
  | .processing => 2
  | .completed => 3
  | .failed => 3

/-- State of one case across the FastAPI server (main.py), the RQ queue and
the worker (worker.py): the Mongo job record status, the number of files in
`0.inputs`, whether the inputs directory exists, the number of queue entries
for this case, and whether a worker is currently executing it. -/
structure CaseState where
  record : Option Status
  fileCount : ℕ
  inputsDirExists : Bool
  queuedJobs : ℕ
  workerBusy : Bool
deriving DecidableEq, Repr

/-- A case before `create_case` has run. -/
def initCase : CaseState := ⟨none, 0, false, 0, false⟩

/-- Embedding of `create_case` (main.py lines 359-397): creates `0.inputs`
and inserts a
record with status `uploading` and `file_count = 0`.  Case ids are
timestamps, so a given case is created once; re-creation is a no-op here. -/
def create_case (s : CaseState) : CaseState :=
  if s.record = none then
    { s with record := some .uploading, inputsDirExists := true, fileCount := 0 }
  else s

/-- Embedding of `upload_file_to_case` (main.py lines 400-437): 404 when
`0.inputs` does
not exist (state unchanged), otherwise stores the file and increments
`file_count`. -/
def upload_file_to_case (s : CaseState) : CaseState :=
  if s.inputsDirExists then { s with fileCount := s.fileCount + 1 } else s

/-- Embedding of `start_case_analysis` (main.py lines 440-520): 404 when
`0.inputs` does
not exist; 400 `No files found in case 0.inputs folder` when it holds no
file — raised before the job record is touched and before anything is
enqueued; otherwise the record status is set to `queued`
(`jobs_collection.update_one`, a no-op when no record matches) and the job
is enqueued. -/
def start_case_analysis (s : CaseState) : Except String CaseState :=
  if s.inputsDirExists = false then Except.error "Case not found"
  else if s.fileCount = 0 then Except.error "No files found in case 0.inputs folder"
  else Except.ok { s with record := s.record.map (fun _ => .queued),
                          queuedJobs := s.queuedJobs + 1 }

/-- Worker pickup: `process_ctqa_analysis` (worker.py lines 140-164) sets
the record to `processing` when it starts on a dequeued job. -/
def worker_begin (s : CaseState) : CaseState :=
  if 0 < s.queuedJobs ∧ s.workerBusy = false then
    { s with queuedJobs := s.queuedJobs - 1, workerBusy := true,
             record := s.record.map (fun _ => .processing) }
  else s

/-- Worker completion: `process_ctqa_analysis` (worker.py lines 198-214)
sets `completed` on success and `failed` on any exception. -/
def worker_finish (s : CaseState) (ok : Bool) : CaseState :=
  if s.workerBusy then
    { s with workerBusy := false,
             record := s.record.map (fun _ => if ok then .completed else .failed) }
  else s

/-- The operations that touch a case record. -/
inductive Op where
  | createCase
  | addFile
  | startAnalysis
  | workerBegin
  | workerFinish (ok : Bool)
deriving DecidableEq, Repr

/-- Effect of one operation on a case; failing HTTP calls leave the state
unchanged. -/
def applyOp (s : CaseState) : Op → CaseState
  | .createCase => create_case s
  | .addFile => upload_file_to_case s
  | .startAnalysis =>
    match start_case_analysis s with
    | .ok s2 => s2
    | .error _ => s
  | .workerBegin => worker_begin s
  | .workerFinish ok => worker_finish s ok

/-- Run a sequence of operations. -/
def runOps (s : CaseState) (ops : List Op) : CaseState := ops.foldl applyOp s

/-- Rank of the stored status; `0` when no record exists yet. -/
def statusRank (s : CaseState) : ℕ :=
  match s.record with
  | none => 0
  | some st => st.rank

/-- Outcome of `CTQA.report` (ctqa.py lines 849-937): which of the two
artifacts were written, and the propagated exception if any. -/
structure ReportOutcome where
  htmlFile : Option String
  jsonFile : Option String
  raised : Option String
deriving DecidableEq, Repr

/-- Control flow of `CTQA.report`: `htmlRender` stands for the template
reading and table-row rendering (ctqa.py lines 880-921; `log_error` raises,
so any failure there propagates), after which the HTML file is written
(lines 924-926); only then is `collect_analysis_results` run and the JSON
document written (lines 931-935), `jsonCollect` standing for that step. -/
def report (htmlRender : Except String String) (jsonCollect : Except String String) :
    ReportOutcome :=
  match htmlRender with
  | .error e => ⟨none, none, some e⟩
  | .ok html =>
    match jsonCollect with
    | .error e => ⟨some html, none, some e⟩
    | .ok js => ⟨some html, some js, none⟩

/-- A concrete operation sequence: create a case, upload one file, start the
analysis, and let the worker process it to completion. -/
def happyTrace : List Op :=
  [.createCase, .addFile, .startAnalysis, .workerBegin, .workerFinish true]

/-! ## Helper lemmas -/

theorem foldl_max_map_mul (k : ℚ) (hk : 0 ≤ k) :
    ∀ (xs : List ℚ) (a : ℚ),
      (xs.map (fun v => k * v)).foldl max (k * a) = k * xs.foldl max a := by
  intro xs
  induction xs with
  | nil => intro a; rfl
  | cons x xs ih =>
    intro a
    simp only [List.map_cons, List.foldl_cons]
    rw [← mul_max_of_nonneg _ _ hk, ih]

theorem foldl_min_map_mul (k : ℚ) (hk : 0 ≤ k) :
    ∀ (xs : List ℚ) (a : ℚ),
      (xs.map (fun v => k * v)).foldl min (k * a) = k * xs.foldl min a := by
  intro xs
  induction xs with
  | nil => intro a; rfl
  | cons x xs ih =>
    intro a
    simp only [List.map_cons, List.foldl_cons]
    rw [← mul_min_of_nonneg _ _ hk, ih]

theorem py_max_map_mul (k : ℚ) (hk : 0 ≤ k) (values : List ℚ) (hne : values ≠ []) :
    py_max (values.map (fun v => k * v)) = k * py_max values := by
  cases values with
  | nil => exact absurd rfl hne
  | cons x xs => simpa [py_max] using foldl_max_map_mul k hk xs x

theorem py_min_map_mul (k : ℚ) (hk : 0 ≤ k) (values : List ℚ) (hne : values ≠ []) :
    py_min (values.map (fun v => k * v)) = k * py_min values := by
  cases values with
  | nil => exact absurd rfl hne
  | cons x xs => simpa [py_min] using foldl_min_map_mul k hk xs x

theorem masked_values_eq_nil (image mask : List ℚ)
    (h : ∀ p ∈ image.zip mask, ¬ p.2 > 1/2) : masked_values image mask = [] := by
  unfold masked_values
  rw [List.filterMap_eq_nil_iff]
  intro p hp
  rw [if_neg (h p hp)]

/-! ## C6: integral non-uniformity -/

/-- C6: the integral non-uniformity equals `(max - min) / (max + min)` over
the uniformity mean values; it is invariant under multiplying every value by
a positive scalar `k`, and it is not invariant under adding a constant
offset (witnessed by the values `[1, 3]` shifted by `1`). -/
theorem C6_integral_non_uniformity (values : List ℚ) (k : ℚ)
    (hne : values ≠ []) (hden : py_max values + py_min values ≠ 0) (hk : 0 < k) :
    calc_integral_non_uniformity values =
      (py_max values - py_min values) / (py_max values + py_min values) ∧
    calc_integral_non_uniformity (values.map (fun v => k * v)) =
      calc_integral_non_uniformity values ∧
    calc_integral_non_uniformity (([1, 3] : List ℚ).map (fun v => v + 1)) ≠
      calc_integral_non_uniformity [1, 3] := by
  refine ⟨rfl, ?_,
    by norm_num [calc_integral_non_uniformity, py_max, py_min, max_def, min_def]⟩
  unfold calc_integral_non_uniformity
  rw [py_max_map_mul k hk.le values hne, py_min_map_mul k hk.le values hne,
    ← mul_sub, ← mul_add, mul_div_mul_left _ _ hk.ne']

/-- Witness for C6 at `values = [1, 3]`, `k = 2`. -/
theorem C6_witness :
    calc_integral_non_uniformity (([1, 3] : List ℚ).map (fun v => 2 * v)) =
      calc_integral_non_uniformity [1, 3] :=
  (C6_integral_non_uniformity [1, 3] 2 (by simp)
    (by norm_num [py_max, py_min, max_def, min_def]) (by norm_num)).2.1

/-! ## C4: startAnalysis with an empty inputs directory -/

/-- C4: when the inputs directory exists but holds no file,
`start_case_analysis` fails with the no-input-files error and the case state
is completely unchanged: the record keeps its previous status (it is not set
to `queued`) and nothing is enqueued. -/
theorem C4_no_input_files (s : CaseState)
    (hdir : s.inputsDirExists = true) (hempty : s.fileCount = 0) :
    start_case_analysis s = Except.error "No files found in case 0.inputs folder" ∧
    applyOp s .startAnalysis = s ∧
    (applyOp s .startAnalysis).record = s.record ∧
    (applyOp s .startAnalysis).queuedJobs = s.queuedJobs := by
  have h1 : start_case_analysis s = Except.error "No files found in case 0.inputs folder" := by
    unfold start_case_analysis
    rw [hdir]
    simp [hempty]
  have h2 : applyOp s .startAnalysis = s := by
    unfold applyOp
    rw [h1]
  exact ⟨h1, h2, by rw [h2], by rw [h2]⟩

/-- Witness for C4: a case with record status `uploading`, an existing
inputs directory and zero files. -/
theorem C4_witness :
    start_case_analysis ⟨some Status.uploading, 0, true, 0, false⟩ =
      Except.error "No files found in case 0.inputs folder" ∧
    applyOp ⟨some Status.uploading, 0, true, 0, false⟩ .startAnalysis =
      ⟨some Status.uploading, 0, true, 0, false⟩ := by
  have h := C4_no_input_files ⟨some Status.uploading, 0, true, 0, false⟩ rfl rfl
  exact ⟨h.1, h.2.1⟩

/-! ## C8: report artifacts -/

/-- C8 counterexample: when the HTML rendering path fails (for example the
template is missing), `CTQA.report` raises before `collect_analysis_results`
runs, so no JSON result document is produced — contradicting the claim that
a failure in HTML rendering still yields the JSON document. -/
theorem C8_counterexample :
    report (Except.error "report template not found") (Except.ok "analysis_results") =
      ⟨none, none, some "report template not found"⟩ ∧
    (report (Except.error "report template not found")
        (Except.ok "analysis_results")).jsonFile = none := by
  exact ⟨rfl, rfl⟩

/-- C8 (amended): the JSON document is computed independently of the HTML
content — whenever the HTML path succeeds, the JSON outcome is exactly the
outcome of `collect_analysis_results`, and a JSON-side failure still leaves
the already-written HTML report — but the JSON step runs only after the HTML
rendering, so an HTML failure propagates and neither artifact is written. -/
theorem C8_report_paths (h e j : String) (jc : Except String String) :
    report (Except.ok h) (Except.error e) = ⟨some h, none, some e⟩ ∧
    report (Except.ok h) (Except.ok j) = ⟨some h, some j, none⟩ ∧
    (report (Except.error e) jc).jsonFile = none ∧
    (report (Except.error e) jc).htmlFile = none := by
  cases jc <;> exact ⟨rfl, rfl, rfl, rfl⟩

/-! ## C9: pass/fail boundary -/

/-- C9: in both the HTML table rows and the JSON result document a
measurement passes exactly when the absolute difference to the baseline is
strictly below the tolerance; an absolute difference exactly equal to the
tolerance is marked `Fail` (and `passed = false`). -/
theorem C9_pass_boundary (value0 value1 tol : ℚ) :
    (html_pass_fail value0 value1 tol = "Pass" ↔ |value1 - value0| < tol) ∧
    ((collect_csv_result value0 value1 tol).passed = true ↔ |value1 - value0| < tol) ∧
    (|value1 - value0| = tol →
      html_pass_fail value0 value1 tol = "Fail" ∧
      (collect_csv_result value0 value1 tol).passed = false ∧
      html_pass_cell value0 value1 tol =
        "<td class=\"fail\">Fail<span class=\"glyphicon glyphicon-remove\" aria-hidden=\"true\"></span></td>") := by
  have hmain : html_pass_fail value0 value1 tol = "Pass" ↔ |value1 - value0| < tol := by
    by_cases hlt : |value1 - value0| < tol
    · exact iff_of_true (by simp [html_pass_fail, hlt]) hlt
    · exact iff_of_false (by simp [html_pass_fail, hlt]) hlt
  have hjson : (collect_csv_result value0 value1 tol).passed = true ↔
      |value1 - value0| < tol := by
    unfold collect_csv_result
    exact decide_eq_true_iff
  refine ⟨hmain, hjson, fun heq => ?_⟩
  have hnlt : ¬ |value1 - value0| < tol := by rw [heq]; exact lt_irrefl tol
  have hfail : html_pass_fail value0 value1 tol = "Fail" := by
    simp [html_pass_fail, hnlt]
  refine ⟨hfail, ?_, ?_⟩
  · unfold collect_csv_result
    simpa using hnlt
  · unfold html_pass_cell
    rw [hfail, if_neg (by decide : ¬ ("Fail" : String) = "Pass")]

/-- Witness for C9 at `value0 = 0`, `value1 = 1`, `tol = 1`: the absolute
difference equals the tolerance and the row fails. -/
theorem C9_witness :
    html_pass_fail 0 1 1 = "Fail" ∧ (collect_csv_result 0 1 1).passed = false :=
  ⟨((C9_pass_boundary 0 1 1).2.2 (by norm_num)).1,
    ((C9_pass_boundary 0 1 1).2.2 (by norm_num)).2.1⟩

/-! ## C10: empty-mask statistics -/

/-- C10: when the mask selects no voxel, `calc_image_min_max_mean_std_3d_f`
does not fail (it is total, only a warning is logged) and returns
`min = max = mean = std = 0.0`. -/
theorem C10_empty_mask_stats (image mask : List ℚ)
    (h : ∀ p ∈ image.zip mask, ¬ p.2 > 1/2) :
    calc_image_min_max_mean_std_3d_f image mask = ⟨0, 0, 0, 0⟩ := by
  unfold calc_image_min_max_mean_std_3d_f
  rw [masked_values_eq_nil image mask h]
  rfl

/-- Witness for C10: a two-voxel image with an all-zero mask. -/
theorem C10_witness :
    calc_image_min_max_mean_std_3d_f [5, 7] [0, 0] = ⟨0, 0, 0, 0⟩ :=
  C10_empty_mask_stats [5, 7] [0, 0] (by
    intro p hp
    have hp2 : p = ((5 : ℚ), (0 : ℚ)) ∨ p = ((7 : ℚ), (0 : ℚ)) := by
      simpa [List.zip, List.zipWith] using hp
    rcases hp2 with h | h <;> subst h <;> norm_num)

/-! ## C7: centroid threshold direction -/

/-- C7 counterexample: for the out-of-plane/depth key `DT`, a voxel below
the cutoff 200 receives value 0 (the background weight of the subsequent
centroid computation) and a voxel at-or-above the cutoff receives the
foreground value 1 — the opposite of the claimed direction, which does hold
for the in-plane geometry key. -/
theorem C7_counterexample :
    DT_centroid_threshold [100] = [0] ∧
    DT_centroid_threshold [300] = [1] ∧
    geo_centroid_threshold [-1000] = [1] ∧
    geo_centroid_threshold [0] = [0] ∧
    (0 : ℚ) ≠ 1 := by decide

/-- C7 (amended): the binary-threshold step of the centroid computation uses
the feature-below-cutoff convention only for the in-plane geometry key
(voxels below -500 become 1, others 0); for the out-of-plane/depth key the
levels are swapped: voxels below 200 become 0 and voxels at-or-above 200
become the foreground value 1. -/
theorem C7_centroid_threshold (img : List ℚ) (v : ℕ) (hv : v < img.length) :
    ((geo_centroid_threshold img).getD v 0 =
      if img.getD v 0 < -500 then 1 else 0) ∧
    ((DT_centroid_threshold img).getD v 0 =
      if img.getD v 0 < 200 then 0 else 1) ∧
    (geo_centroid_threshold img).length = img.length ∧
    (DT_centroid_threshold img).length = img.length := by
  unfold geo_centroid_threshold DT_centroid_threshold threshold_3d_f
  refine ⟨?_, ?_, by simp, by simp⟩ <;>
    rw [List.getD_eq_getElem _ _ (by simpa using hv), List.getElem_map,
      ← List.getD_eq_getElem _ _ hv]

/-- Witness for C7 at the one-voxel image `[100]`. -/
theorem C7_witness :
    (geo_centroid_threshold [100]).getD 0 0 =
      (if (100 : ℚ) < -500 then 1 else 0) ∧
    (DT_centroid_threshold [100]).getD 0 0 =
      (if (100 : ℚ) < 200 then 0 else 1) := by
  have h := C7_centroid_threshold [100] 0 (by decide)
  exact ⟨h.1, h.2.1⟩

/-! ## C2: status monotonicity -/

/-- C2 counterexample: after a case is created, uploaded to, analyzed and
completed, calling `start_case_analysis` again is allowed and resets the
stored status from `completed` back to `queued` — a reachable backward
transition. -/
theorem C2_counterexample :
    (runOps initCase happyTrace).record = some Status.completed ∧
    (runOps initCase (happyTrace ++ [Op.startAnalysis])).record = some Status.queued ∧
    Status.rank Status.queued < Status.rank Status.completed := by decide

/-- C2 (amended): case creation and file upload never change the status
rank, worker completion never lowers it, and worker pickup never lowers it
from a not-yet-terminal status; but `start_case_analysis` on an existing
case with at least one uploaded file unconditionally sets the status to
`queued`, so re-triggering analysis on a completed or failed case moves the
status backward. -/
theorem C2_status_monotonicity (s : CaseState) :
    statusRank (applyOp s .createCase) = statusRank s ∧
    statusRank (applyOp s .addFile) = statusRank s ∧
    (∀ ok, statusRank s ≤ statusRank (applyOp s (.workerFinish ok))) ∧
    (statusRank s ≤ 2 → statusRank s ≤ statusRank (applyOp s .workerBegin)) ∧
    (s.inputsDirExists = true → s.fileCount ≠ 0 →
      (applyOp s .startAnalysis).record = s.record.map (fun _ => Status.queued)) := by
  obtain ⟨record, fc, inp, qj, busy⟩ := s
  refine ⟨?_, ?_, ?_, ?_, ?_⟩
  · cases record <;> simp [applyOp, create_case, statusRank, Status.rank]
  · cases record <;> simp [applyOp, upload_file_to_case, statusRank] <;>
      split_ifs <;> rfl
  · intro ok
    cases record with
    | none => cases busy <;> simp [applyOp, worker_finish, statusRank]
    | some st =>
      cases busy <;> cases ok <;> cases st <;>
        simp [applyOp, worker_finish, statusRank, Status.rank]
  · intro hrank
    cases record with
    | none => cases busy <;> simp [applyOp, worker_begin, statusRank]
    | some st =>
      by_cases hq : 0 < qj ∧ busy = false
      · have : st.rank ≤ 2 := by simpa [statusRank] using hrank
        simp [applyOp, worker_begin, hq, statusRank, Status.rank]
        cases st <;> simp_all [Status.rank]
      · simp [applyOp, worker_begin, hq, statusRank]
  · intro hdir hfc
    unfold applyOp start_case_analysis
    rw [hdir]
    simp [hfc]

/-- Witness for C2 on a concrete completed case: re-triggering analysis sets
the record back to `queued`. -/
theorem C2_witness :
    (applyOp ⟨some Status.completed, 1, true, 0, false⟩ .startAnalysis).record =
      (some Status.completed).map (fun _ => Status.queued) :=
  (C2_status_monotonicity ⟨some Status.completed, 1, true, 0, false⟩).2.2.2.2 rfl (by decide)

/-! ## C5: relative MTF -/

theorem first_below_half_eq_none_iff (l : List ℚ) :
    first_below_half l = none ↔ ∀ x ∈ l, ¬ x < 1/2 := by
  induction l with
  | nil => simp [first_below_half]
  | cons x xs ih =>
    by_cases h : x < 1/2
    · have hsome : first_below_half (x :: xs) = some 0 := by
        simp only [first_below_half, if_pos h]
      refine iff_of_false (by simp [hsome]) ?_
      intro hall
      exact hall x (by simp) h
    · simp only [first_below_half, if_neg h, Option.map_eq_none']
      rw [ih]
      constructor
      · intro hall y hy
        rcases List.mem_cons.mp hy with rfl | hy2
        · exact h
        · exact hall y hy2
      · intro hall y hy
        exact hall y (by simp [hy])

theorem first_below_half_spec (l : List ℚ) (j : ℕ) (h : first_below_half l = some j) :
    j < l.length ∧ l.getD j 0 < 1/2 ∧ ∀ k < j, ¬ l.getD k 0 < 1/2 := by
  induction l generalizing j with
  | nil => simp [first_below_half] at h
  | cons x xs ih =>
    by_cases hx : x < 1/2
    · simp only [first_below_half, if_pos hx, Option.some.injEq] at h
      subst h
      exact ⟨by simp, by simpa using hx, fun k hk => absurd hk (by omega)⟩
    · simp only [first_below_half, if_neg hx, Option.map_eq_some'] at h
      obtain ⟨j2, hj2, rfl⟩ := h
      obtain ⟨h1, h2, h3⟩ := ih j2 hj2
      refine ⟨by simpa using h1, by simpa using h2, fun k hk => ?_⟩
      cases k with
      | zero => simpa using hx
      | succ k2 => simpa using h3 k2 (by omega)

/-- When the crossing index is positive, `mtf_interp` interpolates the line
through the sample before the crossing and the crossing sample. -/
theorem mtf_interp_eq_of_some (v2 : List ℚ) (j : ℕ)
    (h : first_below_half v2 = some j) (hj : 1 ≤ j)
    (hlt : v2.getD j 0 < 1/2) (hge : 1/2 ≤ v2.getD (j - 1) 0) :
    mtf_interp v2 =
      Except.ok (((j : ℚ) - 1) +
        (1/2 - v2.getD (j - 1) 0) / (v2.getD j 0 - v2.getD (j - 1) 0)) := by
  have hj0 : ¬ j = 0 := by omega
  have ha : v2.getD j 0 - v2.getD (j - 1) 0 ≠ 0 := by
    intro hc
    have h2 : v2.getD j 0 = v2.getD (j - 1) 0 := by linarith
    rw [h2] at hlt
    linarith
  unfold mtf_interp
  rw [h]
  simp only [if_neg hj0]
  rw [show (j : ℚ) - ((j : ℚ) - 1) = 1 by ring]
  rw [if_pos (show ¬ (1 : ℚ) = 0 by norm_num)]
  rw [div_one]
  rw [if_pos ha]
  congr 1
  rw [div_eq_iff ha, add_mul, div_mul_cancel₀ _ ha]
  ring

/-- C5 (amended): the std values are normalized by the first value (the
reference sample becomes 1); when no normalized sample drops below 0.5 the
computation fails with the no-crossing error; otherwise, writing `j` for the
first index whose normalized value is below 0.5, every sample before `j` is
at least 0.5 (so sample `j - 1` is the last sample `≥ 0.5` preceding the
crossing, though not necessarily the last such sample overall) and the
reported 50% position is the point where the line through samples `j - 1`
and `j` reaches 0.5. -/
theorem C5_relative_mtf (v1 : List ℚ) (hne : v1 ≠ []) (h0 : v1.headI ≠ 0) :
    ((v1.map (fun v => v / v1.headI)).headI = 1) ∧
    ((∀ x ∈ v1.map (fun v => v / v1.headI), ¬ x < 1/2) →
      calc_relative_mtf v1 =
        Except.error "calc_relative_mtf() - Failed finding 50% crossing!") ∧
    (∀ j, first_below_half (v1.map (fun v => v / v1.headI)) = some j →
      1 ≤ j ∧ j < v1.length ∧
      (∀ k < j, 1/2 ≤ (v1.map (fun v => v / v1.headI)).getD k 0) ∧
      (v1.map (fun v => v / v1.headI)).getD j 0 < 1/2 ∧
      ∃ x, calc_relative_mtf v1 = Except.ok x ∧
        (v1.map (fun v => v / v1.headI)).getD (j - 1) 0 +
            (x - ((j : ℚ) - 1)) *
              ((v1.map (fun v => v / v1.headI)).getD j 0 -
                (v1.map (fun v => v / v1.headI)).getD (j - 1) 0) = 1/2) := by
  obtain ⟨a, l, rfl⟩ := List.exists_cons_of_ne_nil hne
  have hhead : ((a :: l).map (fun v => v / (a :: l).headI)).headI = 1 := by
    simp [List.headI, div_self (by simpa using h0)]
  refine ⟨hhead, ?_, ?_⟩
  · intro hall
    unfold calc_relative_mtf mtf_interp
    rw [(first_below_half_eq_none_iff _).2 hall]
  · intro j hj
    set v2 := (a :: l).map (fun v => v / (a :: l).headI) with hv2
    obtain ⟨hjlen, hjlt, hjprev⟩ := first_below_half_spec v2 j hj
    have hj1 : 1 ≤ j := by
      by_contra hc
      have hj0 : j = 0 := by omega
      subst hj0
      have hd : v2.getD 0 0 = 1 := by
        rw [List.getD_eq_getElem _ _ (by simpa using hjlen)]
        simpa [← List.getElem_zero] using hhead
      rw [hd] at hjlt
      norm_num at hjlt
    have hprev : ∀ k < j, 1/2 ≤ v2.getD k 0 := fun k hk => not_lt.mp (hjprev k hk)
    have hge : 1/2 ≤ v2.getD (j - 1) 0 := hprev (j - 1) (by omega)
    refine ⟨hj1, by simpa [hv2] using hjlen, hprev, hjlt, ?_⟩
    refine ⟨((j : ℚ) - 1) +
      (1/2 - v2.getD (j - 1) 0) / (v2.getD j 0 - v2.getD (j - 1) 0), ?_, ?_⟩
    · unfold calc_relative_mtf
      rw [← hv2]
      exact mtf_interp_eq_of_some v2 j hj hj1 hjlt hge
    · have hgap : v2.getD j 0 - v2.getD (j - 1) 0 ≠ 0 := by
        intro hc
        have h2 : v2.getD j 0 = v2.getD (j - 1) 0 := by linarith
        rw [h2] at hjlt
        linarith
      rw [show (((j : ℚ) - 1) +
            (1/2 - v2.getD (j - 1) 0) / (v2.getD j 0 - v2.getD (j - 1) 0)) -
            ((j : ℚ) - 1) =
          (1/2 - v2.getD (j - 1) 0) / (v2.getD j 0 - v2.getD (j - 1) 0) by ring]
      rw [div_mul_cancel₀ _ hgap]
      ring

/-- Witness for C5 at `v1 = [2, 2, 0]`. -/
theorem C5_witness :
    ([2, 2, 0] : List ℚ) ≠ [] ∧
    (([2, 2, 0] : List ℚ).map (fun v => v / ([2, 2, 0] : List ℚ).headI)).headI = 1 :=
  ⟨by simp, (C5_relative_mtf [2, 2, 0] (by simp) (by norm_num)).1⟩

/-- C5 counterexample: on the (non-monotone) normalized values
`[1, 2/5, 4/5]` the code interpolates between samples 0 and 1 and reports
`5/6`, while interpolating between the globally last sample `≥ 0.5` (index
2) and the first sample `< 0.5` (index 1), as the claim words it, gives
`5/4`. -/
theorem C5_counterexample :
    calc_relative_mtf [1, 2/5, 4/5] = Except.ok (5/6) ∧
    last_ge_half (([1, 2/5, 4/5] : List ℚ).map
      (fun v => v / ([1, 2/5, 4/5] : List ℚ).headI)) = some 2 ∧
    claim_mtf_50_crossing [1, 2/5, 4/5] = some (5/4) ∧
    (5/6 : ℚ) ≠ 5/4 := by
  refine ⟨?_, ?_, ?_, by norm_num⟩
  · norm_num [calc_relative_mtf, mtf_interp, first_below_half, List.getD]
  · norm_num [last_ge_half, List.range_succ, List.getD]
  · norm_num [claim_mtf_50_crossing, last_ge_half, first_below_half,
      List.range_succ, List.getD]

/-! ## C1 and C3: composite masks -/

theorem overwrite_label_length (c m : List ℚ) (lab : ℚ) (h : m.length = c.length) :
    (overwrite_label c m lab).length = c.length := by
  induction c generalizing m with
  | nil => simp [overwrite_label]
  | cons x cs ih =>
    cases m with
    | nil => simp at h
    | cons y ms =>
      simp only [overwrite_label, List.length_cons]
      rw [ih ms (by simpa using h)]

theorem overwrite_label_getD (c m : List ℚ) (lab : ℚ) (v : ℕ)
    (hlen : m.length = c.length) (hv : v < c.length) :
    (overwrite_label c m lab).getD v 0 =
      if m.getD v 0 > 1/2 then lab else c.getD v 0 := by
  induction c generalizing m v with
  | nil => simp at hv
  | cons x cs ih =>
    cases m with
    | nil => simp at hlen
    | cons y ms =>
      cases v with
      | zero => simp [overwrite_label]
      | succ v2 =>
        simp only [overwrite_label, List.getD_cons_succ]
        exact ih ms v2 (by simpa using hlen) (by simpa using hv)

theorem make_composite_go_length (ms : List (List ℚ)) :
    ∀ (comp : List ℚ) (lab : ℚ), (∀ m ∈ ms, m.length = comp.length) →
      (make_composite_go ms comp lab).length = comp.length := by
  induction ms with
  | nil => intro comp lab _; rfl
  | cons m rest ih =>
    intro comp lab h
    have hm : m.length = comp.length := h m (by simp)
    have hol : (overwrite_label comp m lab).length = comp.length :=
      overwrite_label_length _ _ _ hm
    simp only [make_composite_go]
    rw [ih (overwrite_label comp m lab) (lab + 1) ?_, hol]
    intro m2 hm2
    rw [hol]
    exact h m2 (by simp [hm2])

theorem make_composite_go_getD_no_hit (ms : List (List ℚ)) :
    ∀ (comp : List ℚ) (lab : ℚ) (v : ℕ),
      (∀ m ∈ ms, m.length = comp.length) →
      (∀ m ∈ ms, ¬ m.getD v 0 > 1/2) →
      (make_composite_go ms comp lab).getD v 0 = comp.getD v 0 := by
  induction ms with
  | nil => intro comp lab v _ _; rfl
  | cons m rest ih =>
    intro comp lab v hlen hno
    have hm : m.length = comp.length := hlen m (by simp)
    have hol : (overwrite_label comp m lab).length = comp.length :=
      overwrite_label_length _ _ _ hm
    simp only [make_composite_go]
    rw [ih (overwrite_label comp m lab) (lab + 1) v ?_ ?_]
    · by_cases hv : v < comp.length
      · rw [overwrite_label_getD comp m lab v hm hv, if_neg (hno m (by simp))]
      · rw [List.getD_eq_default _ _ (hol ▸ not_lt.1 hv),
          List.getD_eq_default _ _ (not_lt.1 hv)]
    · intro m2 hm2
      rw [hol]
      exact hlen m2 (by simp [hm2])
    · intro m2 hm2
      exact hno m2 (by simp [hm2])

theorem make_composite_go_getD_hit (ms : List (List ℚ)) :
    ∀ (comp : List ℚ) (lab : ℚ) (v j : ℕ),
      (∀ m ∈ ms, m.length = comp.length) → v < comp.length →
      j < ms.length → (ms.getD j []).getD v 0 > 1/2 →
      (∀ k, k < ms.length → k ≠ j → ¬ (ms.getD k []).getD v 0 > 1/2) →
      (make_composite_go ms comp lab).getD v 0 = lab + (j : ℚ) := by
  induction ms with
  | nil => intro comp lab v j _ _ hj _ _; simp at hj
  | cons m rest ih =>
    intro comp lab v j hlen hv hj hhit huniq
    have hm : m.length = comp.length := hlen m (by simp)
    have hol : (overwrite_label comp m lab).length = comp.length :=
      overwrite_label_length _ _ _ hm
    simp only [make_composite_go]
    cases j with
    | zero =>
      have hmhit : m.getD v 0 > 1/2 := by simpa using hhit
      rw [make_composite_go_getD_no_hit rest (overwrite_label comp m lab) (lab + 1) v ?_ ?_]
      · rw [overwrite_label_getD comp m lab v hm hv, if_pos hmhit]
        simp
      · intro m2 hm2
        rw [hol]
        exact hlen m2 (by simp [hm2])
      · intro m2 hm2
        obtain ⟨k, hk, hkm⟩ := List.mem_iff_getElem.1 hm2
        have := huniq (k + 1) (by simpa using hk) (by omega)
        rw [List.getD_cons_succ, List.getD_eq_getElem _ _ hk, hkm] at this
        exact this
    | succ j2 =>
      rw [ih (overwrite_label comp m lab) (lab + 1) v j2 ?_ ?_ ?_ ?_ ?_]
      · push_cast
        ring
      · intro m2 hm2
        rw [hol]
        exact hlen m2 (by simp [hm2])
      · rw [hol]
        exact hv
      · simpa using hj
      · simpa using hhit
      · intro k hk hkj
        have := huniq (k + 1) (by simpa using hk) (by omega)
        simpa using this

theorem zeros_getD (l : List ℚ) (v : ℕ) : (l.map (fun _ => (0 : ℚ))).getD v 0 = 0 := by
  by_cases hv : v < l.length
  · rw [List.getD_eq_getElem _ _ (by simpa using hv), List.getElem_map]
  · exact List.getD_eq_default _ _ (by simpa using not_lt.1 hv)

theorem make_composite_length (masks : List (List ℚ)) (n : ℕ)
    (hne : masks ≠ []) (hlen : ∀ m ∈ masks, m.length = n) :
    (make_composite masks).length = n := by
  obtain ⟨a, rest, rfl⟩ := List.exists_cons_of_ne_nil hne
  have ha : a.length = n := hlen a (by simp)
  unfold make_composite
  rw [make_composite_go_length _ _ _ ?_]
  · simpa [List.headI] using ha
  · intro m hm
    simp only [List.headI, List.length_map]
    rw [hlen m hm, ha]

theorem make_composite_getD_of_hit (masks : List (List ℚ)) (n : ℕ)
    (hlen : ∀ m ∈ masks, m.length = n) (i v : ℕ)
    (hi : i < masks.length) (hv : v < n)
    (hhit : (masks.getD i []).getD v 0 > 1/2)
    (huniq : ∀ k, k < masks.length → k ≠ i → ¬ (masks.getD k []).getD v 0 > 1/2) :
    (make_composite masks).getD v 0 = 1 + (i : ℚ) := by
  have hne : masks ≠ [] := by
    intro h
    rw [h] at hi
    simp at hi
  obtain ⟨a, rest, rfl⟩ := List.exists_cons_of_ne_nil hne
  have ha : a.length = n := hlen a (by simp)
  unfold make_composite
  apply make_composite_go_getD_hit _ _ _ _ i ?_ ?_ hi hhit huniq
  · intro m hm
    simp only [List.headI, List.length_map]
    rw [hlen m hm, ha]
  · simpa [List.headI, ha] using hv

theorem make_composite_getD_of_no_hit (masks : List (List ℚ)) (n : ℕ)
    (hlen : ∀ m ∈ masks, m.length = n) (v : ℕ)
    (hno : ∀ m ∈ masks, ¬ m.getD v 0 > 1/2) :
    (make_composite masks).getD v 0 = 0 := by
  unfold make_composite
  rw [make_composite_go_getD_no_hit masks _ 1 v ?_ hno, zeros_getD]
  intro m hm
  cases masks with
  | nil => simp at hm
  | cons a rest =>
    simp only [List.headI, List.length_map]
    rw [hlen m hm, hlen a (by simp)]

theorem reconstruct_mask_length (t : List ℚ) (i : ℕ) :
    (reconstruct_mask t i).length = t.length := by
  simp [reconstruct_mask]

theorem reconstruct_mask_getD (t : List ℚ) (i v : ℕ) (hv : v < t.length) :
    (reconstruct_mask t i).getD v 0 =
      if (i : ℚ) - 3/5 ≤ t.getD v 0 ∧ t.getD v 0 ≤ (i : ℚ) + 3/5 then 1 else 0 := by
  unfold reconstruct_mask
  rw [List.getD_eq_getElem _ _ (by simpa using hv), List.getElem_map,
    ← List.getD_eq_getElem _ _ hv]

/-- C1: encoding pairwise-disjoint binary masks of one shared geometry into
the composite label volume and decoding each label `i` through the closed
band `[i - 0.6, i + 0.6]` (identity transform: the decoded volume is the
composite itself) gives back each original mask exactly — same voxel values
in the same order, hence the same voxel sets and counts. -/
theorem C1_composite_round_trip (masks : List (List ℚ)) (n : ℕ)
    (hne : masks ≠ [])
    (hlen : ∀ m ∈ masks, m.length = n)
    (hbin : ∀ m ∈ masks, ∀ x ∈ m, x = 0 ∨ x = 1)
    (hdisj : ∀ i j, i < masks.length → j < masks.length → i ≠ j → ∀ v, v < n →
      ¬ ((masks.getD i []).getD v 0 > 1/2 ∧ (masks.getD j []).getD v 0 > 1/2)) :
    ∀ i, i < masks.length →
      reconstruct_mask (make_composite masks) (i + 1) = masks.getD i [] ∧
      (reconstruct_mask (make_composite masks) (i + 1)).count 1 =
        (masks.getD i []).count 1 := by
  intro i hi
  have hmi_mem : masks.getD i [] ∈ masks := by
    rw [List.getD_eq_getElem _ _ hi]
    exact List.getElem_mem hi
  have hmi_len : (masks.getD i []).length = n := hlen _ hmi_mem
  have hcomp_len : (make_composite masks).length = n :=
    make_composite_length masks n hne hlen
  have hmain : reconstruct_mask (make_composite masks) (i + 1) = masks.getD i [] := by
    apply List.ext_getElem
    · rw [reconstruct_mask_length, hcomp_len, hmi_len]
    · intro v hv1 hv2
      have hvn : v < n := hmi_len ▸ hv2
      rw [show (reconstruct_mask (make_composite masks) (i + 1))[v] =
            (reconstruct_mask (make_composite masks) (i + 1)).getD v 0 from
          (List.getD_eq_getElem _ _ hv1).symm,
        show (masks.getD i [])[v] = (masks.getD i []).getD v 0 from
          (List.getD_eq_getElem _ _ hv2).symm]
      rw [reconstruct_mask_getD _ _ _ (by rw [hcomp_len]; exact hvn)]
      have hx_mem : (masks.getD i []).getD v 0 ∈ masks.getD i [] := by
        rw [List.getD_eq_getElem _ _ hv2]
        exact List.getElem_mem hv2
      rcases hbin _ hmi_mem _ hx_mem with h0 | h1
      · by_cases hex : ∃ j, j < masks.length ∧ j ≠ i ∧ (masks.getD j []).getD v 0 > 1/2
        · obtain ⟨j, hj, hji, hjhit⟩ := hex
          have hcv : (make_composite masks).getD v 0 = 1 + (j : ℚ) :=
            make_composite_getD_of_hit masks n hlen j v hj hvn hjhit
              (fun k hk hkj hc => hdisj k j hk hj hkj v hvn ⟨hc, hjhit⟩)
          have hcond : ¬ (((i + 1 : ℕ) : ℚ) - 3/5 ≤ 1 + (j : ℚ) ∧
              1 + (j : ℚ) ≤ ((i + 1 : ℕ) : ℚ) + 3/5) := by
            push_cast
            rintro ⟨hle, hge2⟩
            rcases lt_or_gt_of_ne hji with hltji | hltij
            · have hq : (j : ℚ) + 1 ≤ (i : ℚ) := by exact_mod_cast hltji
              linarith
            · have hq : (i : ℚ) + 1 ≤ (j : ℚ) := by exact_mod_cast hltij
              linarith
          rw [hcv, if_neg hcond, h0]
        · push_neg at hex
          have hno : ∀ m ∈ masks, ¬ m.getD v 0 > 1/2 := by
            intro m hm
            obtain ⟨k, hk, hkm⟩ := List.mem_iff_getElem.1 hm
            by_cases hki : k = i
            · subst hki
              rw [← hkm, ← List.getD_eq_getElem _ [] hk, h0]
              norm_num
            · rw [← hkm, ← List.getD_eq_getElem _ [] hk]
              exact not_lt.mpr (hex k hk hki)
          have hcv : (make_composite masks).getD v 0 = 0 :=
            make_composite_getD_of_no_hit masks n hlen v hno
          have hcond : ¬ (((i + 1 : ℕ) : ℚ) - 3/5 ≤ 0 ∧
              (0 : ℚ) ≤ ((i + 1 : ℕ) : ℚ) + 3/5) := by
            push_cast
            rintro ⟨hle, _⟩
            have hi0 : (0 : ℚ) ≤ (i : ℚ) := Nat.cast_nonneg i
            linarith
          rw [hcv, if_neg hcond, h0]
      · have hhit : (masks.getD i []).getD v 0 > 1/2 := by
          rw [h1]
          norm_num
        have hcv : (make_composite masks).getD v 0 = 1 + (i : ℚ) :=
          make_composite_getD_of_hit masks n hlen i v hi hvn hhit
            (fun k hk hki hc => hdisj k i hk hi hki v hvn ⟨hc, hhit⟩)
        have hcond : ((i + 1 : ℕ) : ℚ) - 3/5 ≤ 1 + (i : ℚ) ∧
            1 + (i : ℚ) ≤ ((i + 1 : ℕ) : ℚ) + 3/5 := by
          push_cast
          constructor <;> linarith
        rw [hcv, if_pos hcond, h1]
  exact ⟨hmain, by rw [hmain]⟩

/-- Witness for C1 on the two disjoint binary masks `[1, 0]` and `[0, 1]`:
encode-then-decode returns both masks exactly, in order. -/
theorem C1_witness :
    reconstruct_mask (make_composite [[1, 0], [0, 1]]) 1 = [1, 0] ∧
    reconstruct_mask (make_composite [[1, 0], [0, 1]]) 2 = [0, 1] := by
  have hlen : ∀ m ∈ ([[1, 0], [0, 1]] : List (List ℚ)), m.length = 2 := by
    intro m hm
    simp only [List.mem_cons, List.not_mem_nil, or_false] at hm
    rcases hm with rfl | rfl <;> rfl
  have hbin : ∀ m ∈ ([[1, 0], [0, 1]] : List (List ℚ)), ∀ x ∈ m, x = 0 ∨ x = 1 := by
    intro m hm x hx
    simp only [List.mem_cons, List.not_mem_nil, or_false] at hm
    rcases hm with rfl | rfl <;>
      (simp only [List.mem_cons, List.not_mem_nil, or_false] at hx;
       rcases hx with rfl | rfl <;> simp)
  have hdisj : ∀ i j, i < ([[1, 0], [0, 1]] : List (List ℚ)).length →
      j < ([[1, 0], [0, 1]] : List (List ℚ)).length → i ≠ j → ∀ v, v < 2 →
      ¬ ((([[1, 0], [0, 1]] : List (List ℚ)).getD i []).getD v 0 > 1/2 ∧
        (([[1, 0], [0, 1]] : List (List ℚ)).getD j []).getD v 0 > 1/2) := by
    intro i j hi hj hij v hv
    simp only [List.length_cons, List.length_nil] at hi hj
    interval_cases i <;> interval_cases j <;> first
      | omega
      | (interval_cases v <;>
          norm_num [List.getD_cons_zero, List.getD_cons_succ])
  have h := C1_composite_round_trip [[1, 0], [0, 1]] 2 (by simp) hlen hbin hdisj
  exact ⟨by simpa using (h 0 (by norm_num)).1, by simpa using (h 1 (by norm_num)).1⟩

theorem split_masks_ok (tdata : List ℚ) (fixed : Image3) :
    ∀ (labels : List ℕ) (ms : List Image3),
      split_masks tdata fixed labels = Except.ok ms →
      ms = labels.map (fun i => Image3.mk fixed.geom (reconstruct_mask tdata i)) ∧
      ∀ i ∈ labels, (reconstruct_mask tdata i).count 1 ≠ 0 := by
  intro labels
  induction labels with
  | nil =>
    intro ms h
    simp only [split_masks] at h
    cases h
    exact ⟨by simp, by simp⟩
  | cons i rest ih =>
    intro ms h
    simp only [split_masks] at h
    by_cases hc : (reconstruct_mask tdata i).count 1 = 0
    · rw [if_pos hc] at h
      cases h
    · rw [if_neg hc, if_neg (by simp)] at h
      cases hrec : split_masks tdata fixed rest with
      | error e =>
        rw [hrec] at h
        simp [Except.map] at h
      | ok ms2 =>
        rw [hrec] at h
        simp only [Except.map] at h
        cases h
        obtain ⟨h1, h2⟩ := ih ms2 hrec
        refine ⟨by simp only [List.map_cons]; rw [← h1], ?_⟩
        intro i2 hi2
        rcases List.mem_cons.mp hi2 with rfl | hi3
        · exact hc
        · exact h2 i2 hi3

/-- C3: whenever the per-key mask transfer succeeds, every reconstructed
output mask is non-empty (an all-zero reconstruction always raises before
this point) and carries exactly the fixed volume's geometry; the number of
output masks equals the requested label count. -/
theorem C3_transfer_postcondition (transformed fixed : Image3) (n : ℕ)
    (masks : List Image3)
    (hok : transfer_split transformed fixed n = Except.ok masks) :
    masks.length = n ∧
    ∀ m ∈ masks, m.geom = fixed.geom ∧ 0 < m.data.count 1 := by
  unfold transfer_split at hok
  by_cases hg : transformed.geom ≠ fixed.geom
  · rw [if_pos hg] at hok
    cases hok
  · rw [if_neg hg] at hok
    obtain ⟨h1, h2⟩ := split_masks_ok transformed.data fixed _ masks hok
    subst h1
    refine ⟨by simp, ?_⟩
    intro m hm
    rw [List.mem_map] at hm
    obtain ⟨i, hi, rfl⟩ := hm
    exact ⟨rfl, Nat.pos_of_ne_zero (h2 i hi)⟩

/-- Witness for C3: a one-label transfer of the one-voxel composite `[1]`
onto a fixed image with the same geometry. -/
theorem C3_witness :
    (Image3.mk unitGeom (reconstruct_mask [1] 1)).geom =
      (Image3.mk unitGeom [1]).geom ∧
    0 < (Image3.mk unitGeom (reconstruct_mask [1] 1)).data.count 1 := by
  have harr : reconstruct_mask [1] 1 = [1] := by
    unfold reconstruct_mask
    norm_num
  have hok : transfer_split ⟨unitGeom, [1]⟩ ⟨unitGeom, [1]⟩ 1 =
      Except.ok [⟨unitGeom, reconstruct_mask [1] 1⟩] := by
    unfold transfer_split
    rw [if_neg (by simp)]
    rw [show (List.range 1).map (· + 1) = [1] by decide]
    unfold split_masks
    rw [harr]
    rw [if_neg (by simp), if_neg (by simp)]
    rfl
  exact (C3_transfer_postcondition _ _ _ _ hok).2 _ (by simp)

end CTQA
